import Mathlib

/-!
Shallow embedding of the PBFT message log (`src/message_log.rs` of
hyperledger-sawtooth-pbft) and verification of its specification.

The Rust `HashSet<ParsedMessage>` is modelled as a duplicate-free list with
an insert operation that reports whether the element was actually added,
matching `HashSet::insert`.  Iteration order of the hash set is arbitrary in
Rust; the list order stands in for one such order.  `u64` values are
modelled as `Nat` (no operation here relies on wraparound).
-/

/-- Message kinds, the `PbftMessageType` enum of `message_type.rs`. -/
inductive PbftMessageType where
  | BlockNew
  | PrePrepare
  | Prepare
  | Commit
  | Checkpoint
  | ViewChange
deriving DecidableEq, Repr

/-- Block payload referenced by messages (`protos::pbft_message::PbftBlock`);
all the log ever does with it is compare for equality. -/
structure PbftBlock where
  block_id : Nat
  signer_id : Nat
  block_num : Nat
deriving DecidableEq, Repr

/-- Embeds `protos::pbft_message::PbftMessageInfo`. -/
structure PbftMessageInfo where
  msg_type : PbftMessageType
  view : Nat
  seq_num : Nat
  signer_id : Nat
deriving DecidableEq, Repr

/-- Embeds `protos::pbft_message::PbftMessage`: info plus block. -/
structure PbftMessage where
  info : PbftMessageInfo
  block : PbftBlock
deriving DecidableEq, Repr

/-- the `ParsedMessage` type of `message_type.rs`: a wrapped `PbftMessage` together
with the `from_self` flag.  Equality is structural on every field. -/
structure ParsedMessage where
  message : PbftMessage
  from_self : Bool
deriving DecidableEq, Repr

def ParsedMessage.info (m : ParsedMessage) : PbftMessageInfo :=
  m.message.info

def ParsedMessage.get_block (m : ParsedMessage) : PbftBlock :=
  m.message.block

def ParsedMessage.get_pbft_message (m : ParsedMessage) : PbftMessage :=
  m.message

/-- Embeds `sawtooth_sdk::consensus::engine::Block`, held in the block backlog;
opaque to the log. -/
structure Block where
  payload : Nat
deriving DecidableEq, Repr

/-- the `PbftError` type of `error.rs`, restricted to the variants `message_log.rs`
produces. -/
inductive PbftError where
  | BlockMismatch (got : PbftBlock) (expected : PbftBlock)
  | NotReadyForMessage
deriving DecidableEq, Repr

/-- the `PbftHint` type of `message_type.rs`. -/
inductive PbftHint where
  | FutureMessage
  | PastMessage
  | PresentMessage
deriving DecidableEq, Repr

/-- The part of the `PbftState` type of `state.rs` that the log reads: the current view. -/
structure PbftState where
  view : Nat
deriving DecidableEq, Repr

/-- The part of the `PbftConfig` type of `config.rs` that the log reads. -/
structure PbftConfig where
  max_log_size : Nat
  checkpoint_period : Nat
deriving DecidableEq, Repr

/-- Embeds `PbftStableCheckpoint`. -/
structure PbftStableCheckpoint where
  seq_num : Nat
  checkpoint_messages : List PbftMessage
deriving DecidableEq, Repr

/-- Embeds `PbftLog`. -/
structure PbftLog where
  messages : List ParsedMessage
  low_water_mark : Nat
  high_water_mark : Nat
  max_log_size : Nat
  cycles : Nat
  checkpoint_period : Nat
  backlog : List ParsedMessage
  block_backlog : List Block
  latest_stable_checkpoint : Option PbftStableCheckpoint
deriving DecidableEq, Repr

/-- Embeds `HashSet::insert`: adds the element unless already present, and reports
whether it was actually added. -/
def hashSetInsert (s : List ParsedMessage) (m : ParsedMessage) :
    List ParsedMessage × Bool :=
  if m ∈ s then (s, false) else (s ++ [m], true)

/-- Embeds `PbftLog::new`. -/
def PbftLog.new (config : PbftConfig) : PbftLog where
  messages := []
  low_water_mark := 0
  cycles := 0
  checkpoint_period := config.checkpoint_period
  high_water_mark := config.max_log_size
  max_log_size := config.max_log_size
  backlog := []
  block_backlog := []
  latest_stable_checkpoint := none

/-- Embeds `PbftLog::get_messages_of_type_seq`. -/
def PbftLog.get_messages_of_type_seq (log : PbftLog)
    (msg_type : PbftMessageType) (sequence_number : Nat) :
    List ParsedMessage :=
  log.messages.filter fun msg =>
    msg.info.msg_type = msg_type ∧ msg.info.seq_num = sequence_number

/-- Embeds `PbftLog::get_messages_of_type_seq_view`. -/
def PbftLog.get_messages_of_type_seq_view (log : PbftLog)
    (msg_type : PbftMessageType) (sequence_number : Nat) (view : Nat) :
    List ParsedMessage :=
  log.messages.filter fun msg =>
    msg.info.msg_type = msg_type ∧ msg.info.seq_num = sequence_number ∧
      msg.info.view = view

/-- Embeds `PbftLog::get_one_msg`: first stored message of the given type at
the sequence and view of `info` (the Rust `Vec::first` over hash-set order). -/
def PbftLog.get_one_msg (log : PbftLog) (info : PbftMessageInfo)
    (msg_type : PbftMessageType) : Option ParsedMessage :=
  (log.get_messages_of_type_seq_view msg_type info.seq_num info.view).head?

/-- Embeds `PbftLog::log_has_required_msgs`. -/
def PbftLog.log_has_required_msgs (log : PbftLog)
    (msg_type : PbftMessageType) (ref_msg : ParsedMessage)
    (check_block : Bool) (required : Nat) : Bool :=
  let msgs := log.get_messages_of_type_seq_view msg_type
    ref_msg.info.seq_num ref_msg.info.view
  let msgs := if check_block then
      msgs.filter fun msg => msg.get_block = ref_msg.get_block
    else msgs
  required ≤ msgs.length

/-- Embeds `PbftLog::check_prepared`. -/
def PbftLog.check_prepared (log : PbftLog) (info : PbftMessageInfo)
    (f : Nat) : Except PbftError Bool :=
  match log.get_one_msg info .BlockNew, log.get_one_msg info .PrePrepare with
  | some block_new_msg, some preprep_msg =>
    if block_new_msg.get_block ≠ preprep_msg.get_block then
      .error (.BlockMismatch block_new_msg.get_block preprep_msg.get_block)
    else
      .ok (log.log_has_required_msgs .Prepare preprep_msg true (2 * f + 1))
  | _, _ => .ok false

/-- Embeds `PbftLog::check_committable`.  The `none` branch of the inner match
mirrors the unwrap call in the source, which is unreachable there: a `.ok true`
result of `check_prepared` guarantees the PrePrepare exists
(`check_prepared_ok_true_preprep` below). -/
def PbftLog.check_committable (log : PbftLog) (info : PbftMessageInfo)
    (f : Nat) : Except PbftError Bool :=
  match log.check_prepared info f with
  | .error e => .error e
  | .ok false => .ok false
  | .ok true =>
    match log.get_one_msg info .PrePrepare with
    | some preprep_msg =>
      .ok (log.log_has_required_msgs .Commit preprep_msg true (2 * f + 1))
    | none => .ok false

/-- Embeds `PbftLog::add_message`. -/
def PbftLog.add_message (log : PbftLog) (msg : ParsedMessage)
    (state : PbftState) : PbftLog :=
  if log.high_water_mark ≤ msg.info.seq_num ∨
      msg.info.seq_num < log.low_water_mark then
    log
  else if msg.info.msg_type ≠ .Checkpoint ∧ msg.info.msg_type ≠ .ViewChange ∧
      msg.info.view ≠ state.view then
    log
  else
    let inserted := hashSetInsert log.messages msg
    { log with
        messages := inserted.1
        cycles :=
          if msg.info.msg_type = .BlockNew ∧ inserted.2 = true then
            log.cycles + 1
          else log.cycles }

/-- Embeds `PbftLog::push_backlog`. -/
def PbftLog.push_backlog (log : PbftLog) (msg : ParsedMessage) : PbftLog :=
  { log with backlog := log.backlog ++ [msg] }

/-- Embeds `PbftLog::pop_backlog`: returns the popped front (if any) and the
resulting log. -/
def PbftLog.pop_backlog (log : PbftLog) : Option ParsedMessage × PbftLog :=
  (log.backlog.head?, { log with backlog := log.backlog.tail })

/-- Embeds `PbftLog::push_block_backlog`. -/
def PbftLog.push_block_backlog (log : PbftLog) (msg : Block) : PbftLog :=
  { log with block_backlog := log.block_backlog ++ [msg] }

/-- Embeds `PbftLog::pop_block_backlog`. -/
def PbftLog.pop_block_backlog (log : PbftLog) : Option Block × PbftLog :=
  (log.block_backlog.head?,
    { log with block_backlog := log.block_backlog.tail })

/-- Embeds `PbftLog::add_message_with_hint`: returns the resulting log and the
`Result<(), PbftError>`. -/
def PbftLog.add_message_with_hint (log : PbftLog) (msg : ParsedMessage)
    (hint : PbftHint) (state : PbftState) :
    PbftLog × Except PbftError Unit :=
  match hint with
  | .FutureMessage => (log.push_backlog msg, .error .NotReadyForMessage)
  | .PastMessage => (log.add_message msg state, .error .NotReadyForMessage)
  | .PresentMessage => (log, .ok ())

/-- Embeds `PbftLog::get_latest_checkpoint`. -/
def PbftLog.get_latest_checkpoint (log : PbftLog) : Nat :=
  match log.latest_stable_checkpoint with
  | some cp => cp.seq_num
  | none => 0

/-- Embeds `PbftLog::at_checkpoint`. -/
def PbftLog.at_checkpoint (log : PbftLog) : Bool :=
  log.checkpoint_period ≤ log.cycles

/-- Embeds `PbftLog::garbage_collect`: updates watermarks and cycles, records the
new stable checkpoint, then prunes the store using the freshly stored
sequence number of the new checkpoint (the source calls `get_latest_checkpoint`
after the overwrite). -/
def PbftLog.garbage_collect (log : PbftLog) (stable_checkpoint : Nat)
    (view : Nat) : PbftLog :=
  let log1 := { log with
    low_water_mark := stable_checkpoint
    high_water_mark := stable_checkpoint + log.max_log_size
    cycles := 0 }
  let cp_msgs : List PbftMessage :=
    (log1.get_messages_of_type_seq_view .Checkpoint stable_checkpoint
      view).map fun cp => cp.get_pbft_message
  let log2 := { log1 with
    latest_stable_checkpoint :=
      some ⟨stable_checkpoint, cp_msgs⟩ }
  { log2 with
    messages := log2.messages.filter fun msg =>
      log2.get_latest_checkpoint ≤ msg.info.seq_num ∧ 0 < msg.info.seq_num }

/-- Embeds `PbftLog::get_enough_messages`: filters to non-self messages of the
given type and sequence, groups by view, drops groups below `minimum`, and
returns the group of the highest remaining view (itertools `into_group_map`
+ `sorted_by_key` + `Vec::pop`). -/
def PbftLog.get_enough_messages (log : PbftLog)
    (msg_type : PbftMessageType) (sequence_number : Nat) (minimum : Nat) :
    Option (List ParsedMessage) :=
  let cands := log.messages.filter fun msg =>
    msg.info.msg_type = msg_type ∧ msg.info.seq_num = sequence_number ∧
      msg.from_self = false
  let views := (cands.map fun msg => msg.info.view).dedup
  let qualifying := views.filter fun v =>
    minimum ≤ (cands.filter fun msg => msg.info.view = v).length
  match qualifying with
  | [] => none
  | v :: vs =>
    some (cands.filter fun msg => msg.info.view = vs.foldl max v)

/-! Helper lemmas about the query primitives. -/

/-- A list whose optional head is some element contains that element. -/
theorem head_some_mem {α : Type} {l : List α} {a : α}
    (h : l.head? = some a) : a ∈ l := by
  cases l with
  | nil => exact absurd h (by simp)
  | cons x xs =>
    have hx : x = a := by simpa using h
    exact hx ▸ List.mem_cons_self x xs

/-- A message returned by `get_one_msg` is stored and has the requested
type, sequence number, and view. -/
theorem get_one_msg_some {log : PbftLog} {info : PbftMessageInfo}
    {t : PbftMessageType} {m : ParsedMessage}
    (h : log.get_one_msg info t = some m) :
    m ∈ log.messages ∧ m.info.msg_type = t ∧
      m.info.seq_num = info.seq_num ∧ m.info.view = info.view := by
  unfold PbftLog.get_one_msg PbftLog.get_messages_of_type_seq_view at h
  have hm := head_some_mem h
  rw [List.mem_filter] at hm
  refine ⟨hm.1, ?_⟩
  simpa using hm.2

/-- get_one_msg returns none exactly when no stored message has the
requested type, sequence number, and view. -/
theorem get_one_msg_eq_none {log : PbftLog} {info : PbftMessageInfo}
    {t : PbftMessageType} :
    log.get_one_msg info t = none ↔
      ∀ m ∈ log.messages,
        ¬(m.info.msg_type = t ∧ m.info.seq_num = info.seq_num ∧
          m.info.view = info.view) := by
  unfold PbftLog.get_one_msg PbftLog.get_messages_of_type_seq_view
  rw [List.head?_eq_none_iff, List.filter_eq_nil_iff]
  simp

/-- A true check_prepared guarantees the PrePrepare message exists, which
justifies the unwrap in check_committable. -/
theorem check_prepared_ok_true_preprep {log : PbftLog}
    {info : PbftMessageInfo} {f : Nat}
    (h : log.check_prepared info f = .ok true) :
    ∃ pp, log.get_one_msg info .PrePrepare = some pp := by
  cases hpp : log.get_one_msg info .PrePrepare with
  | some pp => exact ⟨pp, rfl⟩
  | none =>
    cases hbn : log.get_one_msg info .BlockNew with
    | none =>
      rw [PbftLog.check_prepared, hbn, hpp] at h
      exact absurd h (by simp)
    | some bn =>
      rw [PbftLog.check_prepared, hbn, hpp] at h
      exact absurd h (by simp)

/-! Claim theorems. -/

/-- C3: after garbage_collect(S, V) the low water mark is S, the high water
mark is S plus max_log_size, cycles is zero, and the store retains exactly
the previously stored messages whose sequence number is at least S and
strictly positive. -/
theorem garbage_collect_spec (log : PbftLog) (S V : Nat) :
    (log.garbage_collect S V).low_water_mark = S ∧
    (log.garbage_collect S V).high_water_mark = S + log.max_log_size ∧
    (log.garbage_collect S V).cycles = 0 ∧
    (log.garbage_collect S V).messages =
      log.messages.filter fun m =>
        S ≤ m.info.seq_num ∧ 0 < m.info.seq_num :=
  ⟨rfl, rfl, rfl, rfl⟩

/-- C9: garbage_collect(S, V) unconditionally installs a stable checkpoint
with sequence number S containing exactly the Checkpoint messages stored at
sequence S and view V, for every prior checkpoint state (including a prior
checkpoint with a larger sequence number). -/
theorem garbage_collect_checkpoint_spec (log : PbftLog) (S V : Nat) :
    (log.garbage_collect S V).latest_stable_checkpoint =
      some ⟨S, (log.messages.filter fun m =>
        m.info.msg_type = .Checkpoint ∧ m.info.seq_num = S ∧
          m.info.view = V).map ParsedMessage.get_pbft_message⟩ :=
  rfl

/-- C5: a message whose sequence number is out of the window, or whose kind
is view-scoped and whose view differs from the current view, is dropped:
add_message returns the log completely unchanged (store, cycles,
watermarks, checkpoint, and both backlogs).  No error can be returned:
add_message has no error channel at all. -/
theorem add_message_rejected (log : PbftLog) (msg : ParsedMessage)
    (state : PbftState)
    (h : (log.high_water_mark ≤ msg.info.seq_num ∨
          msg.info.seq_num < log.low_water_mark) ∨
         (msg.info.msg_type ≠ .Checkpoint ∧ msg.info.msg_type ≠ .ViewChange ∧
          msg.info.view ≠ state.view)) :
    log.add_message msg state = log := by
  unfold PbftLog.add_message
  rcases h with h | h
  · rw [if_pos h]
  · by_cases hw : log.high_water_mark ≤ msg.info.seq_num ∨
        msg.info.seq_num < log.low_water_mark
    · rw [if_pos hw]
    · rw [if_neg hw, if_pos h]

/-- Witness for C5: a message at sequence 20 is outside the window of a
fresh log with max_log_size 10 and is dropped without any other change. -/
theorem add_message_rejected_witness :
    (PbftLog.new { max_log_size := 10, checkpoint_period := 4 }).add_message
      { message := { info := { msg_type := .Prepare, view := 0, seq_num := 20,
                               signer_id := 0 },
                     block := { block_id := 1, signer_id := 0,
                                block_num := 20 } },
        from_self := false } { view := 0 } =
      PbftLog.new { max_log_size := 10, checkpoint_period := 4 } :=
  add_message_rejected _ _ _ (Or.inl (by decide))

/-- C6: inserting a message that is already stored leaves the log (store
contents, size, and cycles) unchanged, and cycles grows by one exactly when
an admissible, not-yet-stored BlockNew message is inserted, and by zero in
every other case. -/
theorem add_message_duplicate_idempotent (log : PbftLog)
    (msg : ParsedMessage) (state : PbftState) :
    (msg ∈ log.messages → log.add_message msg state = log) ∧
    (log.add_message msg state).cycles = log.cycles +
      (if ¬(log.high_water_mark ≤ msg.info.seq_num ∨
            msg.info.seq_num < log.low_water_mark) ∧
          ¬(msg.info.msg_type ≠ .Checkpoint ∧
            msg.info.msg_type ≠ .ViewChange ∧
            msg.info.view ≠ state.view) ∧
          msg ∉ log.messages ∧ msg.info.msg_type = .BlockNew
        then 1 else 0) := by
  unfold PbftLog.add_message hashSetInsert
  by_cases hw : log.high_water_mark ≤ msg.info.seq_num ∨
      msg.info.seq_num < log.low_water_mark
  · rw [if_pos hw]
    exact ⟨fun _ => rfl, by simp [hw]⟩
  · rw [if_neg hw]
    by_cases hv : msg.info.msg_type ≠ .Checkpoint ∧
        msg.info.msg_type ≠ .ViewChange ∧ msg.info.view ≠ state.view
    · rw [if_pos hv]
      exact ⟨fun _ => rfl, by simp [hv]⟩
    · rw [if_neg hv]
      by_cases hm : msg ∈ log.messages
      · refine ⟨fun _ => ?_, ?_⟩
        · simp [hm]
        · simp [hm, hw, hv]
      · refine ⟨fun hmem => absurd hmem hm, ?_⟩
        by_cases hbn : msg.info.msg_type = .BlockNew
        · have hview : msg.info.view = state.view := by
            by_contra hne
            exact hv ⟨by simp [hbn], by simp [hbn], hne⟩
          simp [hm, hw, hv, hbn, hview]
        · simp [hm, hw, hv, hbn]

/-- Fixture: a fresh log holding one BlockNew message at sequence 1. -/
def blockNewLog : PbftLog :=
  (PbftLog.new { max_log_size := 10, checkpoint_period := 4 }).add_message
    { message := { info := { msg_type := .BlockNew, view := 0, seq_num := 1,
                             signer_id := 0 },
                   block := { block_id := 1, signer_id := 0,
                              block_num := 1 } },
      from_self := false } { view := 0 }

/-- Witness for C6: re-inserting the already stored BlockNew message is a
no-op. -/
theorem add_message_duplicate_idempotent_witness :
    blockNewLog.add_message
      { message := { info := { msg_type := .BlockNew, view := 0, seq_num := 1,
                               signer_id := 0 },
                     block := { block_id := 1, signer_id := 0,
                                block_num := 1 } },
        from_self := false } { view := 0 } = blockNewLog :=
  (add_message_duplicate_idempotent blockNewLog _ _).1 (by decide)

/-- C7: add_message_with_hint pushes a Future message to the tail of the
message backlog and signals not-ready, routes a Past message through
add_message and signals not-ready, and for a Present message changes
nothing and returns success. -/
theorem add_message_with_hint_spec (log : PbftLog) (msg : ParsedMessage)
    (state : PbftState) :
    log.add_message_with_hint msg .FutureMessage state =
      ({ log with backlog := log.backlog ++ [msg] },
        .error .NotReadyForMessage) ∧
    log.add_message_with_hint msg .PastMessage state =
      (log.add_message msg state, .error .NotReadyForMessage) ∧
    log.add_message_with_hint msg .PresentMessage state = (log, .ok ()) :=
  ⟨rfl, rfl, rfl⟩

/-- C10: a fault from check_prepared is propagated unchanged by
check_committable. -/
theorem check_committable_propagates_fault (log : PbftLog)
    (info : PbftMessageInfo) (f : Nat) (e : PbftError)
    (h : log.check_prepared info f = .error e) :
    log.check_committable info f = .error e := by
  unfold PbftLog.check_committable
  rw [h]

/-- Fixture: a log whose BlockNew and PrePrepare at sequence 1, view 0
reference different blocks. -/
def mismatchLog : PbftLog :=
  ((PbftLog.new { max_log_size := 10, checkpoint_period := 4 }).add_message
    { message := { info := { msg_type := .BlockNew, view := 0, seq_num := 1,
                             signer_id := 0 },
                   block := { block_id := 1, signer_id := 0,
                              block_num := 1 } },
      from_self := false } { view := 0 }).add_message
    { message := { info := { msg_type := .PrePrepare, view := 0, seq_num := 1,
                             signer_id := 0 },
                   block := { block_id := 2, signer_id := 0,
                              block_num := 1 } },
      from_self := false } { view := 0 }

/-- Fixture: the message info at sequence 1, view 0 used by the quorum
predicate witnesses. -/
def testInfo : PbftMessageInfo :=
  { msg_type := .BlockNew, view := 0, seq_num := 1, signer_id := 0 }

/-- Witness for C10: the BlockMismatch fault surfaces unchanged through
check_committable. -/
theorem check_committable_propagates_fault_witness :
    mismatchLog.check_committable testInfo 1 =
      .error (.BlockMismatch
        { block_id := 1, signer_id := 0, block_num := 1 }
        { block_id := 2, signer_id := 0, block_num := 1 }) :=
  check_committable_propagates_fault mismatchLog testInfo 1
    (.BlockMismatch { block_id := 1, signer_id := 0, block_num := 1 }
      { block_id := 2, signer_id := 0, block_num := 1 }) (by rfl)


/-- log_has_required_msgs with block checking succeeds exactly when the
required number of stored messages match the reference on type, sequence,
view, and block. -/
theorem log_has_required_msgs_count (log : PbftLog) (t : PbftMessageType)
    (r : ParsedMessage) (required : Nat) :
    log.log_has_required_msgs t r true required = true ↔
      required ≤ (log.messages.filter fun m =>
        m.info.msg_type = t ∧ m.info.seq_num = r.info.seq_num ∧
        m.info.view = r.info.view ∧ m.get_block = r.get_block).length := by
  have hfun : ∀ a ∈ log.messages,
      (decide (a.get_block = r.get_block) &&
        decide (a.info.msg_type = t ∧ a.info.seq_num = r.info.seq_num ∧
          a.info.view = r.info.view)) =
      decide (a.info.msg_type = t ∧ a.info.seq_num = r.info.seq_num ∧
        a.info.view = r.info.view ∧ a.get_block = r.get_block) := by
    intro a _
    rw [← Bool.decide_and, decide_eq_decide]
    tauto
  unfold PbftLog.log_has_required_msgs PbftLog.get_messages_of_type_seq_view
  simp only [if_true, List.filter_filter, List.filter_congr hfun,
    decide_eq_true_eq]

/-- When both the BlockNew and the PrePrepare are found, check_prepared
reduces to the mismatch test followed by the Prepare count. -/
theorem check_prepared_both_some {log : PbftLog} {info : PbftMessageInfo}
    {f : Nat} {bn pp : ParsedMessage}
    (hbn : log.get_one_msg info .BlockNew = some bn)
    (hpp : log.get_one_msg info .PrePrepare = some pp) :
    log.check_prepared info f =
      if bn.get_block ≠ pp.get_block then
        .error (.BlockMismatch bn.get_block pp.get_block)
      else .ok (log.log_has_required_msgs .Prepare pp true (2 * f + 1)) := by
  rw [PbftLog.check_prepared, hbn, hpp]

/-- C1: check_prepared returns false when the BlockNew or the PrePrepare is
absent at the sequence and view of info; returns the BlockMismatch fault
carrying both block references when both are present but their blocks
disagree; and otherwise returns true exactly when at least 2f+1 stored
Prepare messages match the sequence, view, and block of the PrePrepare. -/
theorem check_prepared_spec (log : PbftLog) (info : PbftMessageInfo)
    (f : Nat) :
    (((∀ m ∈ log.messages,
        ¬(m.info.msg_type = .BlockNew ∧ m.info.seq_num = info.seq_num ∧
          m.info.view = info.view)) ∨
      (∀ m ∈ log.messages,
        ¬(m.info.msg_type = .PrePrepare ∧ m.info.seq_num = info.seq_num ∧
          m.info.view = info.view))) →
      log.check_prepared info f = .ok false) ∧
    (∀ bn pp, log.get_one_msg info .BlockNew = some bn →
      log.get_one_msg info .PrePrepare = some pp →
      bn.get_block ≠ pp.get_block →
      log.check_prepared info f =
        .error (.BlockMismatch bn.get_block pp.get_block)) ∧
    (∀ bn pp, log.get_one_msg info .BlockNew = some bn →
      log.get_one_msg info .PrePrepare = some pp →
      bn.get_block = pp.get_block →
      (log.check_prepared info f = .ok true ↔
        2 * f + 1 ≤ (log.messages.filter fun m =>
          m.info.msg_type = .Prepare ∧ m.info.seq_num = info.seq_num ∧
          m.info.view = info.view ∧ m.get_block = pp.get_block).length)) := by
  refine ⟨?_, ?_, ?_⟩
  · intro h
    have hnone : log.get_one_msg info .BlockNew = none ∨
        log.get_one_msg info .PrePrepare = none := by
      rcases h with h | h
      · exact Or.inl (get_one_msg_eq_none.mpr h)
      · exact Or.inr (get_one_msg_eq_none.mpr h)
    rcases hnone with hn | hn
    · rw [PbftLog.check_prepared, hn]
    · cases hbn : log.get_one_msg info .BlockNew with
      | none => rw [PbftLog.check_prepared, hbn]
      | some bn => rw [PbftLog.check_prepared, hbn, hn]
  · intro bn pp hbn hpp hne
    rw [check_prepared_both_some hbn hpp, if_pos hne]
  · intro bn pp hbn hpp heq
    obtain ⟨-, -, hseq, hview⟩ := get_one_msg_some hpp
    rw [check_prepared_both_some hbn hpp, if_neg (not_not_intro heq),
      Except.ok.injEq, log_has_required_msgs_count, hseq, hview]

/-- Fixture: a log holding matching BlockNew, PrePrepare, and one Prepare
at sequence 1, view 0. -/
def preparedLog : PbftLog :=
  (((PbftLog.new { max_log_size := 10, checkpoint_period := 4 }).add_message
    ⟨⟨⟨.BlockNew, 0, 1, 0⟩, ⟨1, 0, 1⟩⟩, false⟩ { view := 0 }).add_message
    ⟨⟨⟨.PrePrepare, 0, 1, 0⟩, ⟨1, 0, 1⟩⟩, false⟩ { view := 0 }).add_message
    ⟨⟨⟨.Prepare, 0, 1, 0⟩, ⟨1, 0, 1⟩⟩, false⟩ { view := 0 }

/-- Witness for C1: with matching BlockNew and PrePrepare and one Prepare,
check_prepared is true for f = 0. -/
theorem check_prepared_spec_witness :
    preparedLog.check_prepared testInfo 0 = .ok true := by
  have h := (check_prepared_spec preparedLog testInfo 0).2.2
    ⟨⟨⟨.BlockNew, 0, 1, 0⟩, ⟨1, 0, 1⟩⟩, false⟩
    ⟨⟨⟨.PrePrepare, 0, 1, 0⟩, ⟨1, 0, 1⟩⟩, false⟩ rfl rfl rfl
  exact h.mpr (by decide)

/-- C2: whenever check_committable returns a boolean, that boolean is true
exactly when check_prepared returns true and at least 2f+1 stored Commit
messages match the sequence, view, and block of the PrePrepare; in
particular a true check_committable forces a true check_prepared. -/
theorem check_committable_spec (log : PbftLog) (info : PbftMessageInfo)
    (f : Nat) (b : Bool)
    (h : log.check_committable info f = .ok b) :
    b = true ↔
      (log.check_prepared info f = .ok true ∧
       ∃ pp, log.get_one_msg info .PrePrepare = some pp ∧
         2 * f + 1 ≤ (log.messages.filter fun m =>
           m.info.msg_type = .Commit ∧ m.info.seq_num = info.seq_num ∧
           m.info.view = info.view ∧ m.get_block = pp.get_block).length) := by
  unfold PbftLog.check_committable at h
  cases hcp : log.check_prepared info f with
  | error e => rw [hcp] at h; exact absurd h (by simp)
  | ok bp =>
    rw [hcp] at h
    cases bp with
    | false =>
      have hb : b = false := by simpa using h.symm
      subst hb
      simp only [Bool.false_eq_true, false_iff]
      intro hc
      exact absurd hc.1 (by simp)
    | true =>
      obtain ⟨pp, hpp⟩ := check_prepared_ok_true_preprep hcp
      obtain ⟨-, -, hseq, hview⟩ := get_one_msg_some hpp
      rw [hpp] at h
      have hb : b = log.log_has_required_msgs .Commit pp true (2 * f + 1) :=
        by simpa using h.symm
      subst hb
      constructor
      · intro hbt
        refine ⟨rfl, pp, hpp, ?_⟩
        rw [← hseq, ← hview]
        exact (log_has_required_msgs_count log .Commit pp (2 * f + 1)).mp hbt
      · rintro ⟨-, pp', hpp', hcount⟩
        have hpe : pp' = pp := by
          rw [hpp] at hpp'
          exact (Option.some_inj.mp hpp').symm
        rw [hpe, ← hseq, ← hview] at hcount
        exact (log_has_required_msgs_count log .Commit pp (2 * f + 1)).mpr
          hcount

/-- Fixture: preparedLog extended with one matching Commit at sequence 1,
view 0. -/
def committedLog : PbftLog :=
  preparedLog.add_message ⟨⟨⟨.Commit, 0, 1, 0⟩, ⟨1, 0, 1⟩⟩, false⟩
    { view := 0 }

/-- Witness for C2: on a log where check_committable is true, the theorem
yields a true check_prepared. -/
theorem check_committable_spec_witness :
    committedLog.check_prepared testInfo 0 = .ok true :=
  ((check_committable_spec committedLog testInfo 0 true (by rfl)).mp rfl).1

/-! Helper lemmas for the seal-candidate query. -/

/-- The fold of max over a list is at least the seed and every element. -/
theorem foldl_max_ge (l : List Nat) (a : Nat) :
    a ≤ l.foldl max a ∧ ∀ x ∈ l, x ≤ l.foldl max a := by
  induction l generalizing a with
  | nil => exact ⟨le_refl a, by simp⟩
  | cons y ys ih =>
    constructor
    · rw [List.foldl_cons]
      exact le_trans (le_max_left a y) (ih (max a y)).1
    · intro x hx
      rw [List.foldl_cons]
      rcases List.mem_cons.mp hx with hx | hx
      · rw [hx]
        exact le_trans (le_max_right a y) (ih (max a y)).1
      · exact (ih (max a y)).2 x hx

/-- The fold of max over a list is the seed or one of the elements. -/
theorem foldl_max_mem (l : List Nat) (a : Nat) :
    l.foldl max a = a ∨ l.foldl max a ∈ l := by
  induction l generalizing a with
  | nil => exact Or.inl rfl
  | cons y ys ih =>
    rcases ih (max a y) with h | h
    · rcases max_choice a y with hm | hm
      · exact Or.inl (by rw [List.foldl_cons, h, hm])
      · refine Or.inr ?_
        rw [List.foldl_cons, h, hm]
        exact List.mem_cons_self y ys
    · exact Or.inr (List.mem_cons_of_mem y h)

/-- Store-level description used to state the seal-candidate claim: the
non-self-authored stored messages of the given type, sequence, and view. -/
def nonSelfGroup (log : PbftLog) (t : PbftMessageType) (seq v : Nat) :
    List ParsedMessage :=
  log.messages.filter fun m => m.info.msg_type = t ∧
    m.info.seq_num = seq ∧ m.from_self = false ∧ m.info.view = v

/-- Restricting the non-self candidates of a type and sequence to one view
is the same as filtering the store by all four conditions at once. -/
theorem cands_filter_view (log : PbftLog) (t : PbftMessageType)
    (seq v : Nat) :
    ((log.messages.filter fun m => m.info.msg_type = t ∧
        m.info.seq_num = seq ∧ m.from_self = false).filter
      fun m => m.info.view = v) = nonSelfGroup log t seq v := by
  unfold nonSelfGroup
  rw [List.filter_filter]
  refine List.filter_congr ?_
  intro a _
  rw [← Bool.decide_and, decide_eq_decide]
  tauto

/-- C8: get_enough_messages considers only non-self-authored stored
messages of the given kind and sequence number, discards every view group
with fewer than the minimum, and returns the group of the numerically
highest remaining view, or none when no view group reaches the minimum. -/
theorem get_enough_messages_spec (log : PbftLog) (t : PbftMessageType)
    (seq minimum : Nat) :
    (∀ ms, log.get_enough_messages t seq minimum = some ms →
      ∃ v, ms = nonSelfGroup log t seq v ∧ minimum ≤ ms.length ∧
        0 < ms.length ∧
        ∀ v2, 0 < (nonSelfGroup log t seq v2).length →
          minimum ≤ (nonSelfGroup log t seq v2).length → v2 ≤ v) ∧
    (log.get_enough_messages t seq minimum = none ↔
      ∀ v, (nonSelfGroup log t seq v).length < minimum ∨
        (nonSelfGroup log t seq v).length = 0) := by
  have hcount := cands_filter_view log t seq
  have hviews : ∀ v : Nat, v ∈ ((log.messages.filter fun m =>
      m.info.msg_type = t ∧ m.info.seq_num = seq ∧
        m.from_self = false).map fun m => m.info.view).dedup ↔
      0 < (nonSelfGroup log t seq v).length := by
    intro v
    rw [List.mem_dedup, List.mem_map, ← hcount v]
    constructor
    · rintro ⟨m, hm, hv⟩
      have hmem : m ∈ (log.messages.filter fun m => m.info.msg_type = t ∧
          m.info.seq_num = seq ∧ m.from_self = false).filter
            fun m => m.info.view = v := by
        rw [List.mem_filter]
        exact ⟨hm, by simp [hv]⟩
      exact List.length_pos.mpr (List.ne_nil_of_mem hmem)
    · intro hlen
      obtain ⟨m, hm⟩ := List.exists_mem_of_length_pos hlen
      rw [List.mem_filter] at hm
      exact ⟨m, hm.1, by simpa using hm.2⟩
  have hqual : ∀ v : Nat, v ∈ (((log.messages.filter fun m =>
      m.info.msg_type = t ∧ m.info.seq_num = seq ∧
        m.from_self = false).map fun m => m.info.view).dedup.filter fun v =>
          minimum ≤ ((log.messages.filter fun m =>
            m.info.msg_type = t ∧ m.info.seq_num = seq ∧
              m.from_self = false).filter fun m =>
                m.info.view = v).length) ↔
      (0 < (nonSelfGroup log t seq v).length ∧
        minimum ≤ (nonSelfGroup log t seq v).length) := by
    intro v
    rw [List.mem_filter, hviews v]
    constructor
    · rintro ⟨h1, h2⟩
      simp only [decide_eq_true_eq] at h2
      rw [hcount v] at h2
      exact ⟨h1, h2⟩
    · rintro ⟨h1, h2⟩
      refine ⟨h1, ?_⟩
      simp only [decide_eq_true_eq]
      rw [hcount v]
      exact h2
  constructor
  · intro ms hms
    simp only [PbftLog.get_enough_messages] at hms
    rcases hq : (((log.messages.filter fun m =>
        m.info.msg_type = t ∧ m.info.seq_num = seq ∧
          m.from_self = false).map fun m => m.info.view).dedup.filter fun v =>
            minimum ≤ ((log.messages.filter fun m =>
              m.info.msg_type = t ∧ m.info.seq_num = seq ∧
                m.from_self = false).filter fun m =>
                  m.info.view = v).length) with _ | ⟨v, vs⟩
    · rw [hq] at hms
      simp at hms
    · rw [hq] at hms
      simp only [Option.some.injEq] at hms
      have hmemQ : ∀ x, x ∈ v :: vs →
          (0 < (nonSelfGroup log t seq x).length ∧
            minimum ≤ (nonSelfGroup log t seq x).length) := by
        intro x hx
        rw [← hq] at hx
        exact (hqual x).mp hx
      have hQmem : ∀ x, (0 < (nonSelfGroup log t seq x).length ∧
          minimum ≤ (nonSelfGroup log t seq x).length) → x ∈ v :: vs :=
        fun x hx => hq ▸ (hqual x).mpr hx
      have hwmem : vs.foldl max v ∈ v :: vs := by
        rcases foldl_max_mem vs v with h | h
        · rw [h]
          exact List.mem_cons_self v vs
        · exact List.mem_cons_of_mem v h
      refine ⟨vs.foldl max v, ?_, ?_, ?_, ?_⟩
      · rw [← hms, hcount]
      · rw [← hms, hcount]
        exact (hmemQ _ hwmem).2
      · rw [← hms, hcount]
        exact (hmemQ _ hwmem).1
      · intro v2 hpos2 hmin2
        have hv2 := hQmem v2 ⟨hpos2, hmin2⟩
        rcases List.mem_cons.mp hv2 with h | h
        · rw [h]
          exact (foldl_max_ge vs v).1
        · exact (foldl_max_ge vs v).2 v2 h
  · constructor
    · intro hn v
      rcases hq : (((log.messages.filter fun m =>
          m.info.msg_type = t ∧ m.info.seq_num = seq ∧
            m.from_self = false).map fun m =>
              m.info.view).dedup.filter fun v =>
            minimum ≤ ((log.messages.filter fun m =>
              m.info.msg_type = t ∧ m.info.seq_num = seq ∧
                m.from_self = false).filter fun m =>
                  m.info.view = v).length) with _ | ⟨v0, vs0⟩
      · by_cases hz : (nonSelfGroup log t seq v).length = 0
        · exact Or.inr hz
        · refine Or.inl ?_
          by_contra hge
          push_neg at hge
          have hvq := (hqual v).mpr ⟨Nat.pos_of_ne_zero hz, hge⟩
          rw [hq] at hvq
          exact absurd hvq (by simp)
      · simp only [PbftLog.get_enough_messages, hq] at hn
        exact absurd hn (by simp)
    · intro h
      have hqnil : (((log.messages.filter fun m =>
          m.info.msg_type = t ∧ m.info.seq_num = seq ∧
            m.from_self = false).map fun m =>
              m.info.view).dedup.filter fun v =>
            minimum ≤ ((log.messages.filter fun m =>
              m.info.msg_type = t ∧ m.info.seq_num = seq ∧
                m.from_self = false).filter fun m =>
                  m.info.view = v).length) = [] := by
        rw [List.filter_eq_nil_iff]
        intro v hv
        have hpos := (hviews v).mp hv
        simp only [decide_eq_true_eq, hcount v]
        rcases h v with hlt | hzero <;> omega
      simp only [PbftLog.get_enough_messages, hqnil]

/-- Witness for C8: on a fresh empty log no view group qualifies and the
query returns none. -/
theorem get_enough_messages_spec_witness :
    (PbftLog.new { max_log_size := 10, checkpoint_period := 4
      }).get_enough_messages .Commit 1 1 = none :=
  (get_enough_messages_spec
    (PbftLog.new { max_log_size := 10, checkpoint_period := 4 })
      .Commit 1 1).2.mpr fun _ => Or.inr rfl

/-! Reachability and the watermark window invariant. -/

/-- States reachable from a freshly constructed log by any sequence of log
operations (the read-only queries do not change state). -/
inductive Reachable : PbftLog → Prop where
  | new (config : PbftConfig) : Reachable (PbftLog.new config)
  | add_message (log : PbftLog) (msg : ParsedMessage) (state : PbftState) :
      Reachable log → Reachable (log.add_message msg state)
  | add_message_with_hint (log : PbftLog) (msg : ParsedMessage)
      (hint : PbftHint) (state : PbftState) :
      Reachable log → Reachable (log.add_message_with_hint msg hint state).1
  | garbage_collect (log : PbftLog) (S V : Nat) :
      Reachable log → Reachable (log.garbage_collect S V)
  | push_backlog (log : PbftLog) (msg : ParsedMessage) :
      Reachable log → Reachable (log.push_backlog msg)
  | pop_backlog (log : PbftLog) :
      Reachable log → Reachable log.pop_backlog.2
  | push_block_backlog (log : PbftLog) (msg : Block) :
      Reachable log → Reachable (log.push_block_backlog msg)
  | pop_block_backlog (log : PbftLog) :
      Reachable log → Reachable log.pop_block_backlog.2

/-- States reachable when every garbage_collect call is monotone: its
stable sequence is at least the current low water mark. -/
inductive ReachableMono : PbftLog → Prop where
  | new (config : PbftConfig) : ReachableMono (PbftLog.new config)
  | add_message (log : PbftLog) (msg : ParsedMessage) (state : PbftState) :
      ReachableMono log → ReachableMono (log.add_message msg state)
  | add_message_with_hint (log : PbftLog) (msg : ParsedMessage)
      (hint : PbftHint) (state : PbftState) :
      ReachableMono log →
        ReachableMono (log.add_message_with_hint msg hint state).1
  | garbage_collect (log : PbftLog) (S V : Nat) :
      log.low_water_mark ≤ S → ReachableMono log →
        ReachableMono (log.garbage_collect S V)
  | push_backlog (log : PbftLog) (msg : ParsedMessage) :
      ReachableMono log → ReachableMono (log.push_backlog msg)
  | pop_backlog (log : PbftLog) :
      ReachableMono log → ReachableMono log.pop_backlog.2
  | push_block_backlog (log : PbftLog) (msg : Block) :
      ReachableMono log → ReachableMono (log.push_block_backlog msg)
  | pop_block_backlog (log : PbftLog) :
      ReachableMono log → ReachableMono log.pop_block_backlog.2

/-- The full window invariant claimed by the specification. -/
def windowInv (log : PbftLog) : Prop :=
  log.high_water_mark = log.low_water_mark + log.max_log_size ∧
  ∀ m ∈ log.messages, log.low_water_mark ≤ m.info.seq_num ∧
    m.info.seq_num < log.high_water_mark

/-- The part of the window invariant that survives non-monotone
checkpointing. -/
def windowInvWeak (log : PbftLog) : Prop :=
  log.high_water_mark = log.low_water_mark + log.max_log_size ∧
  ∀ m ∈ log.messages, log.low_water_mark ≤ m.info.seq_num

/-- A message stored after add_message was stored before, or is the added
message and lies inside the admission window. -/
theorem add_message_mem {log : PbftLog} {msg m : ParsedMessage}
    {state : PbftState} (h : m ∈ (log.add_message msg state).messages) :
    m ∈ log.messages ∨
      (m = msg ∧ log.low_water_mark ≤ msg.info.seq_num ∧
        msg.info.seq_num < log.high_water_mark) := by
  unfold PbftLog.add_message hashSetInsert at h
  by_cases hw : log.high_water_mark ≤ msg.info.seq_num ∨
      msg.info.seq_num < log.low_water_mark
  · rw [if_pos hw] at h
    exact Or.inl h
  · rw [if_neg hw] at h
    push_neg at hw
    by_cases hv : msg.info.msg_type ≠ .Checkpoint ∧
        msg.info.msg_type ≠ .ViewChange ∧ msg.info.view ≠ state.view
    · rw [if_pos hv] at h
      exact Or.inl h
    · rw [if_neg hv] at h
      by_cases hm : msg ∈ log.messages
      · rw [if_pos hm] at h
        exact Or.inl h
      · rw [if_neg hm] at h
        rcases List.mem_append.mp h with h | h
        · exact Or.inl h
        · have hme : m = msg := by simpa using h
          exact Or.inr ⟨hme, hw.2, hw.1⟩

/-- add_message never changes the watermarks or the maximum log size. -/
theorem add_message_frame (log : PbftLog) (msg : ParsedMessage)
    (state : PbftState) :
    (log.add_message msg state).low_water_mark = log.low_water_mark ∧
    (log.add_message msg state).high_water_mark = log.high_water_mark ∧
    (log.add_message msg state).max_log_size = log.max_log_size := by
  unfold PbftLog.add_message
  split
  · exact ⟨rfl, rfl, rfl⟩
  · split
    · exact ⟨rfl, rfl, rfl⟩
    · exact ⟨rfl, rfl, rfl⟩

/-- C4 (amended): in every reachable state the high water mark equals the
low water mark plus max_log_size and every stored message has sequence
number at least the low water mark; the strict upper bound
sequence_number < high_water_mark additionally holds in every state
reachable with monotone garbage collection. -/
theorem reachable_window_invariant (log : PbftLog) :
    (Reachable log → windowInvWeak log) ∧
    (ReachableMono log → windowInv log) := by
  constructor
  · intro h
    induction h with
    | new config =>
      exact ⟨by simp [PbftLog.new], by simp [PbftLog.new]⟩
    | add_message log msg state _ ih =>
      obtain ⟨hlow, hhigh, hmax⟩ := add_message_frame log msg state
      refine ⟨by rw [hlow, hhigh, hmax]; exact ih.1, ?_⟩
      intro m hm
      rcases add_message_mem hm with hmem | ⟨heq, hge, _⟩
      · rw [hlow]
        exact ih.2 m hmem
      · rw [hlow, heq]
        exact hge
    | add_message_with_hint log msg hint state _ ih =>
      cases hint with
      | FutureMessage => exact ⟨ih.1, ih.2⟩
      | PastMessage =>
        have hred : (log.add_message_with_hint msg PbftHint.PastMessage
            state).1 = log.add_message msg state := rfl
        rw [windowInvWeak, hred]
        obtain ⟨hlow, hhigh, hmax⟩ := add_message_frame log msg state
        refine ⟨by rw [hlow, hhigh, hmax]; exact ih.1, ?_⟩
        intro m hm
        rcases add_message_mem hm with hmem | ⟨heq, hge, _⟩
        · rw [hlow]
          exact ih.2 m hmem
        · rw [hlow, heq]
          exact hge
      | PresentMessage => exact ih
    | garbage_collect log S V _ _ =>
      refine ⟨rfl, ?_⟩
      intro m hm
      have hmf : m ∈ log.messages.filter fun m =>
          S ≤ m.info.seq_num ∧ 0 < m.info.seq_num := hm
      rw [List.mem_filter] at hmf
      exact (of_decide_eq_true hmf.2).1
    | push_backlog log msg _ ih => exact ⟨ih.1, ih.2⟩
    | pop_backlog log _ ih => exact ⟨ih.1, ih.2⟩
    | push_block_backlog log msg _ ih => exact ⟨ih.1, ih.2⟩
    | pop_block_backlog log _ ih => exact ⟨ih.1, ih.2⟩
  · intro h
    induction h with
    | new config =>
      refine ⟨by simp [PbftLog.new], ?_⟩
      intro m hm
      exact absurd hm (by simp [PbftLog.new])
    | add_message log msg state _ ih =>
      obtain ⟨hlow, hhigh, hmax⟩ := add_message_frame log msg state
      refine ⟨by rw [hlow, hhigh, hmax]; exact ih.1, ?_⟩
      intro m hm
      rcases add_message_mem hm with hmem | ⟨heq, hge, hlt⟩
      · rw [hlow, hhigh]
        exact ih.2 m hmem
      · rw [hlow, hhigh, heq]
        exact ⟨hge, hlt⟩
    | add_message_with_hint log msg hint state _ ih =>
      cases hint with
      | FutureMessage => exact ⟨ih.1, ih.2⟩
      | PastMessage =>
        have hred : (log.add_message_with_hint msg PbftHint.PastMessage
            state).1 = log.add_message msg state := rfl
        rw [windowInv, hred]
        obtain ⟨hlow, hhigh, hmax⟩ := add_message_frame log msg state
        refine ⟨by rw [hlow, hhigh, hmax]; exact ih.1, ?_⟩
        intro m hm
        rcases add_message_mem hm with hmem | ⟨heq, hge, hlt⟩
        · rw [hlow, hhigh]
          exact ih.2 m hmem
        · rw [hlow, hhigh, heq]
          exact ⟨hge, hlt⟩
      | PresentMessage => exact ih
    | garbage_collect log S V hmono _ ih =>
      refine ⟨rfl, ?_⟩
      intro m hm
      have hmf : m ∈ log.messages.filter fun m =>
          S ≤ m.info.seq_num ∧ 0 < m.info.seq_num := hm
      rw [List.mem_filter] at hmf
      have hcond := of_decide_eq_true hmf.2
      refine ⟨hcond.1, ?_⟩
      have hbound := ih.2 m hmf.1
      have hhigh := ih.1
      show m.info.seq_num < S + log.max_log_size
      omega
    | push_backlog log msg _ ih => exact ⟨ih.1, ih.2⟩
    | pop_backlog log _ ih => exact ⟨ih.1, ih.2⟩
    | push_block_backlog log msg _ ih => exact ⟨ih.1, ih.2⟩
    | pop_block_backlog log _ ih => exact ⟨ih.1, ih.2⟩

/-- Witness for C4 (amended): after one monotone garbage collection from a
fresh log, the window equation of the invariant holds. -/
theorem reachable_window_invariant_witness :
    ((PbftLog.new ⟨10, 4⟩).garbage_collect 5 0).high_water_mark =
    ((PbftLog.new ⟨10, 4⟩).garbage_collect 5 0).low_water_mark +
    ((PbftLog.new ⟨10, 4⟩).garbage_collect 5 0).max_log_size :=
  ((reachable_window_invariant _).2 (ReachableMono.garbage_collect _ 5 0
    (by decide) (ReachableMono.new _))).1

/-- Fixture: a Prepare message at sequence 14 used by the counterexample. -/
def seq14Msg : ParsedMessage := ⟨⟨⟨.Prepare, 0, 14, 0⟩, ⟨14, 0, 14⟩⟩, false⟩

/-- Fixture: the state reached by new (max_log_size 10), garbage_collect 5,
add of seq14Msg, garbage_collect 0. -/
def slidBackLog : PbftLog :=
  (((PbftLog.new ⟨10, 4⟩).garbage_collect 5 0).add_message seq14Msg
    ⟨0⟩).garbage_collect 0 0

/-- Counterexample for C4 as stated: garbage collection with a stable
sequence below the current low water mark slides the window backwards
while a previously admitted message at a higher sequence survives
pruning, violating the strict upper bound.  Concretely, from a fresh log
with max_log_size 10: garbage_collect 5 (window [5, 15)), add a Prepare
at sequence 14, then garbage_collect 0 (window [0, 10)); the message at
sequence 14 is retained with 14 at least the high water mark 10. -/
theorem window_invariant_counterexample :
    ¬ ∀ log : PbftLog, Reachable log → windowInv log := by
  intro hall
  have hreach : Reachable slidBackLog :=
    Reachable.garbage_collect _ 0 0 (Reachable.add_message _ _ _
      (Reachable.garbage_collect _ 5 0 (Reachable.new _)))
  have hm := (hall _ hreach).2 seq14Msg (by decide)
  exact absurd hm.2 (by decide)
